import Mathlib

/-!
Shallow embedding of the overload-resolution / attribute-resolution core of
`numba/typing.py` (classes `Context`, `FunctionTemplate`, `Signature`,
`AttributeTemplate` and the builtin template catalog), together with theorems
settling the specification claims about it.

Python dicts are modelled as association lists (first match wins, assignment
replaces the first binding of the key), Python `None` returns as `Option`,
raised exceptions as the `Except` error path, and Python integers as `Int`.
-/

set_option autoImplicit false

deriving instance DecidableEq for Except

namespace NumbaTyping

/-- Type values of the target type system.  The concrete type catalog lives in
the external `numba.types` module (not part of this core, and not under
`src/`).  Modelled from the spec: an opaque, comparable type value, optionally
parametric (arrays and homogeneous tuples carry structure), covering the
constants the builtin catalog of `typing.py` mentions
(`int32`, `range_state32_type`, `pyobject`, `types.Array`, ...). -/
inductive Ty where
  | int32
  | int64
  | float32
  | float64
  | boolean
  | pyobject
  | noneTy
  | intp
  | range_type
  | range_state32
  | range_state64
  | range_iter32
  | range_iter64
  | array (dtype : Ty) (ndim : Nat)
  | unituple (dtype : Ty) (count : Nat)
deriving DecidableEq

/-- The Python class of a type value (`type(value)` in `resolve_getattr`).
Modelled from the spec: the category key of a parametric type (its structural
kind), an atom class for the scalar/marker types. -/
inductive TyCat where
  | atomCls
  | arrayCls
  | unitupleCls
deriving DecidableEq

/-- Modelled from the spec: parametric types are those carrying internal
structure (array and homogeneous-tuple types); the scalar and range marker
types are atomic. -/
def Ty.is_parametric : Ty → Bool
  | .array _ _ => true
  | .unituple _ _ => true
  | _ => false

/-- `type(value)`: the category key of a type value. -/
def Ty.cat : Ty → TyCat
  | .array _ _ => .arrayCls
  | .unituple _ _ => .unitupleCls
  | _ => .atomCls

/-- `value.ndim` of an array type (used by `ArrayAttribute.resolve_shape`). -/
def Ty.tyNdim : Ty → Nat
  | .array _ n => n
  | _ => 0

/-- Modelled from the spec: the optional `getitem` capability of a type value
(`hasattr(base, "getitem")` / `base.getitem()` in `GetItem.generic`), giving
`(return type, index type)`.  In the external catalog only array types carry
it. -/
def Ty.tyGetitem : Ty → Option (Ty × Ty)
  | .array d _ => some (d, .intp)
  | _ => none

/-- Modelled from the spec: the optional `setitem` capability of a type value
(`base.setitem()` in `SetItem.generic`), giving `(index type, value type)`. -/
def Ty.tySetitem : Ty → Option (Ty × Ty)
  | .array d _ => some (.intp, d)
  | _ => none

/-- A registry key of a `Context`: Python uses arbitrary objects as dict keys;
the builtin catalog uses type values (`Range.key = types.range_type`),
strings (`"getiter"`, `"+"`, ...) and type classes
(`ArrayAttribute.key = types.Array`). -/
inductive Key where
  | kTy (t : Ty)
  | kStr (s : String)
  | kCat (c : TyCat)
deriving DecidableEq

/-- `class Signature`: a return type plus an ordered tuple of parameter
types (`__slots__ = 'return_type', 'args'`). -/
structure Signature where
  return_type : Ty
  args : List Ty
deriving DecidableEq

/-- `def signature(return_type, *args)`. -/
def signature (return_type : Ty) (args : List Ty) : Signature :=
  ⟨return_type, args⟩

/-- `Signature.__eq__`: compares the `args` tuples only (the return type is
ignored). -/
def sigEq (a b : Signature) : Bool :=
  a.args == b.args

/-- A structural hash of a type value, standing in for CPython's `hash` on
the opaque type objects. -/
def tyHash : Ty → Nat
  | .int32 => 1
  | .int64 => 2
  | .float32 => 3
  | .float64 => 4
  | .boolean => 5
  | .pyobject => 6
  | .noneTy => 7
  | .intp => 8
  | .range_type => 9
  | .range_state32 => 10
  | .range_state64 => 11
  | .range_iter32 => 12
  | .range_iter64 => 13
  | .array d n => 100 + tyHash d * 31 + n
  | .unituple d n => 200 + tyHash d * 31 + n

/-- `hash(self.args)`: the hash of the parameter tuple. -/
def listTyHash (l : List Ty) : Nat :=
  l.foldl (fun h t => h * 1000003 + tyHash t) 7

/-- `Signature.__hash__ = hash(self.args)`: depends on the parameter tuple
only. -/
def sigHash (s : Signature) : Nat :=
  listTyHash s.args

/-- The two dynamic resolvers of the builtin catalog (`GetItem.generic` and
`SetItem.generic`), defunctionalized so templates stay first-order data. -/
inductive GenericId where
  | getitemG
  | setitemG
deriving DecidableEq

/-- `class FunctionTemplate`: an operation key, an optional case list
(`cases`; the empty list models a falsy/absent `cases` attribute) and an
optional dynamic resolver (`generic`). -/
structure FunctionTemplate where
  key : Key
  cases : List Signature
  generic : Option GenericId

/-- `class AttributeTemplate`: a key plus the per-attribute handlers.  The
handler table models the `resolve_<attr>` method-name reflection of
`AttributeTemplate.resolve` as an explicit mapping. -/
structure AttributeTemplate where
  key : Key
  handlers : List (String × (Ty → Ty))

/-- Errors raised by the core (Python exception paths):
`kwAssert` = `assert not kws`; `assertFail` = other failing asserts and the
`ValueError` of `min([])`; `ambiguous` = `TypeError("Ambiguous overloading...")`;
`notImplErr` = a bare `NotImplementedError`; `attrNotImpl` =
`NotImplementedError(value, attr)`; `keyErr` = a dict `KeyError`;
`dupAssert` = the duplicate-registration asserts; `indexErr` / `unpackErr` =
`IndexError` / tuple-unpack `ValueError` in the generic resolvers. -/
inductive TypingError where
  | kwAssert
  | assertFail
  | ambiguous (cs : List Signature)
  | notImplErr
  | attrNotImpl (v : Ty) (attr : String)
  | keyErr
  | dupAssert
  | indexErr
  | unpackErr
deriving DecidableEq

/-- Association-list lookup, modelling `d[key]` / `d.get(key)` on a Python
dict. -/
def lookupKey {α : Type} (l : List (Key × α)) (k : Key) : Option α :=
  (l.find? (fun p => p.1 == k)).map Prod.snd

/-- `d[key] = v` on a Python dict: replace the binding if present, else
append. -/
def dinsert {α : Type} (l : List (Key × α)) (k : Key) (v : α) : List (Key × α) :=
  match l with
  | [] => [(k, v)]
  | (k', v') :: rest => if k' = k then (k, v) :: rest else (k', v') :: dinsert rest k v

/-- `class Context`: the type-lattice reference plus the two registries. -/
structure Context where
  type_lattice : List ((Ty × Ty) × Int)
  functions : List (Key × FunctionTemplate)
  attributes : List (Key × AttributeTemplate)

/-- `self.type_lattice.get((fromty, toty))`: lattice-table lookup. -/
def lookupLat (l : List ((Ty × Ty) × Int)) (a b : Ty) : Option Int :=
  (l.find? (fun p => p.1 == (a, b))).map Prod.snd

/-- `Context.type_distance`: `0` on equal types, else the lattice entry. -/
def Context.type_distance (ctx : Context) (fromty toty : Ty) : Option Int :=
  if fromty = toty then some 0
  else lookupLat ctx.type_lattice fromty toty

/-- `Context.unify_pairs`: `pyobject` when no lattice path exists, the second
type on a promotion (distance `>= 0`), the first on a demotion. -/
def Context.unify_pairs (ctx : Context) (first second : Ty) : Ty :=
  match ctx.type_distance first second with
  | none => .pyobject
  | some d => if d ≥ 0 then second else first

/-- `Context.unify_types`: `reduce(self.unify_pairs, types)` (fails on an
empty sequence, hence the `Option`). -/
def Context.unify_types (ctx : Context) : List Ty → Option Ty
  | [] => none
  | t :: ts => some (ts.foldl ctx.unify_pairs t)

/-- `_uses_downcast`: does the distance tuple contain a negative entry. -/
def _uses_downcast (dists : List Int) : Bool :=
  dists.any (fun d => decide (d < 0))

/-- `_sum_downcast`: the sum of the absolute values of the negative entries
of a distance tuple (positive entries are ignored). -/
def _sum_downcast (dists : List Int) : Int :=
  dists.foldl (fun c d => if d < 0 then c + |d| else c) 0

/-- `sum(dists)` of Python. -/
def sumInt (dists : List Int) : Int :=
  dists.foldl (· + ·) 0

/-- The per-position distance computation of `FunctionTemplate.apply_case`:
`type_distance(toty=formal, fromty=actual)` over `zip(case.args, args)`,
`None` as soon as one position has no path. -/
def distList (ctx : Context) : List (Ty × Ty) → Option (List Int)
  | [] => some []
  | (formal, actual) :: rest =>
      match ctx.type_distance actual formal with
      | none => none
      | some d => (distList ctx rest).map (d :: ·)

/-- `FunctionTemplate.apply_case`: asserts that no keyword arguments are
present, returns `none` on an arity mismatch or a missing lattice path, else
the tuple of per-position distances. -/
def apply_case (ctx : Context) (case : Signature) (args : List Ty)
    (kws : List String) : Except TypingError (Option (List Int)) :=
  if kws.isEmpty then
    if case.args.length = args.length then
      .ok (distList ctx (case.args.zip args))
    else
      .ok none
  else
    .error .kwAssert

/-- One member of the upcast set: `(sum(dists), case)` of the source, with the
case's position in the case list standing in for CPython 2's arbitrary (but
fixed) fallback ordering of `Signature` objects inside tuple comparison. -/
structure UpEntry where
  s : Int
  idx : Nat
  sig : Signature
deriving DecidableEq

/-- One member of the downcast set: `(dists, case)` of the source. -/
abbrev DownEntry := List Int × Signature

/-- `FunctionTemplate._find_compatible_definitions`: partition the matching
cases into the upcast set (no negative distance) and the downcast set, in
case order. -/
def _find_compatible_definitions (ctx : Context) (args : List Ty)
    (kws : List String) :
    Nat → List Signature → Except TypingError (List UpEntry × List DownEntry)
  | _, [] => .ok ([], [])
  | i, c :: cs =>
      match apply_case ctx c args kws with
      | .error e => .error e
      | .ok m =>
          match _find_compatible_definitions ctx args kws (i + 1) cs with
          | .error e => .error e
          | .ok (u, d) =>
              match m with
              | none => .ok (u, d)
              | some dists =>
                  if _uses_downcast dists then .ok (u, (dists, c) :: d)
                  else .ok (⟨sumInt dists, i, c⟩ :: u, d)

/-- The Python 2 tuple comparison `(sum1, case1) < (sum2, case2)` used by
`min` in `_select_best_upcast` (case order via the list index). -/
def lexLt (a b : UpEntry) : Bool :=
  if a.s < b.s then true
  else if a.s = b.s then decide (a.idx < b.idx)
  else false

/-- Python's `min` over a non-empty list: fold keeping the first minimal
element (`item < best` replaces). -/
def pymin (best : UpEntry) : List UpEntry → UpEntry
  | [] => best
  | x :: xs => pymin (if lexLt x best then x else best) xs

/-- Python's `list.remove`: drop the first occurrence. -/
def remove_first (x : UpEntry) : List UpEntry → List UpEntry
  | [] => []
  | y :: ys => if y = x then ys else y :: remove_first x ys

/-- `FunctionTemplate._select_best_upcast`: a single candidate is returned;
otherwise the minimum by `(sum, case)` order is taken, removed, the minimum of
the remainder is taken, and only those two sums are compared. -/
def _select_best_upcast : List UpEntry → Except TypingError Signature
  | [] => .error .assertFail
  | [e] => .ok e.sig
  | b :: h :: t =>
      match remove_first (pymin b (h :: t)) (b :: h :: t) with
      | [] => .error .assertFail
      | r :: rs =>
          if (pymin b (h :: t)).s < (pymin r rs).s then .ok (pymin b (h :: t)).sig
          else .error (.ambiguous [(pymin b (h :: t)).sig, (pymin r rs).sig])

/-- `sys.maxint` of a 64-bit CPython 2 build: the initial value of `downdist`
in `_select_best_downcast`. -/
def maxint : Int := 2 ^ 63 - 1

/-- The accumulation loop of `_select_best_downcast`: `downdist` holds the
best cost seen so far, `leasts` the candidates achieving it; a candidate whose
cost exceeds `downdist` is dropped. -/
def downLoop (downdist : Int) (leasts : List DownEntry) :
    List DownEntry → List DownEntry
  | [] => leasts
  | e :: rest =>
      if _sum_downcast e.1 < downdist then downLoop (_sum_downcast e.1) [e] rest
      else if _sum_downcast e.1 = downdist then downLoop downdist (leasts ++ [e]) rest
      else downLoop downdist leasts rest

/-- `FunctionTemplate._select_best_downcast`: a single candidate is returned;
otherwise the candidates of least `_sum_downcast` cost collected by the loop
are inspected — one winner is returned, any other number is an ambiguity
error naming exactly the collected candidates. -/
def _select_best_downcast : List DownEntry → Except TypingError Signature
  | [] => .error .assertFail
  | [e] => .ok e.2
  | e1 :: e2 :: rest =>
      match downLoop maxint [] (e1 :: e2 :: rest) with
      | [e] => .ok e.2
      | ls => .error (.ambiguous (ls.map Prod.snd))

/-- `FunctionTemplate._select_best_definition`: the upcast set takes strict
precedence; with both sets empty the Python method falls through and returns
`None`. -/
def _select_best_definition (u : List UpEntry) (d : List DownEntry) :
    Except TypingError (Option Signature) :=
  match u with
  | _ :: _ => (_select_best_upcast u).map some
  | [] =>
      match d with
      | _ :: _ => (_select_best_downcast d).map some
      | [] => .ok none

/-- `GetItem.generic` and `SetItem.generic` of the builtin catalog. -/
def runGeneric : GenericId → Context → List Ty → List String →
    Except TypingError (Option Signature)
  | .getitemG, ctx, args, kws =>
      if kws.isEmpty then
        match args with
        | [] => .error .indexErr
        | base :: _ =>
            match base.tyGetitem with
            | some (retty, indty) =>
                match apply_case ctx (signature retty [base, indty]) args kws with
                | .error e => .error e
                | .ok (some _) => .ok (some (signature retty [base, indty]))
                | .ok none => .ok none
            | none => .error .notImplErr
      else .error .kwAssert
  | .setitemG, _, args, kws =>
      if kws.isEmpty then
        match args with
        | [base, _, _] =>
            match base.tySetitem with
            | some (indty, valty) =>
                .ok (some (signature .noneTy [base, indty, valty]))
            | none => .error .notImplErr
        | _ => .error .unpackErr
      else .error .kwAssert

/-- `FunctionTemplate.apply`: case-list resolution when a non-empty case list
is present, else the dynamic resolver, else `NotImplementedError`. -/
def FunctionTemplate.apply (t : FunctionTemplate) (ctx : Context)
    (args : List Ty) (kws : List String) :
    Except TypingError (Option Signature) :=
  match t.cases with
  | c :: cs =>
      match _find_compatible_definitions ctx args kws 0 (c :: cs) with
      | .error e => .error e
      | .ok (u, d) => _select_best_definition u d
  | [] =>
      match t.generic with
      | some g => runGeneric g ctx args kws
      | none => .error .notImplErr

/-- `Context.resolve_function_type`: `self.functions[func]` then
`ft.apply(args, kws)`. -/
def Context.resolve_function_type (ctx : Context) (func : Key)
    (args : List Ty) (kws : List String) :
    Except TypingError (Option Signature) :=
  match lookupKey ctx.functions func with
  | none => .error .keyErr
  | some ft => ft.apply ctx args kws

/-- `getattr(self, "resolve_%s" % attr, None)` as an explicit handler-table
lookup. -/
def lookupHandler (at' : AttributeTemplate) (attr : String) : Option (Ty → Ty) :=
  (at'.handlers.find? (fun p => p.1 == attr)).map Prod.snd

/-- `AttributeTemplate.resolve`: dispatch to the handler of the attribute
name, `NotImplementedError(value, attr)` when there is none. -/
def AttributeTemplate.resolve (at' : AttributeTemplate) (value : Ty)
    (attr : String) : Except TypingError Ty :=
  match lookupHandler at' attr with
  | none => .error (.attrNotImpl value attr)
  | some fn => .ok (fn value)

/-- `Context.resolve_getattr`: exact-key lookup, category fallback for
parametric value types, then handler dispatch. -/
def Context.resolve_getattr (ctx : Context) (value : Ty) (attr : String) :
    Except TypingError Ty :=
  match lookupKey ctx.attributes (.kTy value) with
  | some ai => ai.resolve value attr
  | none =>
      if value.is_parametric then
        match lookupKey ctx.attributes (.kCat value.cat) with
        | some ai => ai.resolve value attr
        | none => .error .keyErr
      else .error .keyErr

/-- `Context.resolve_setitem`: delegate to `resolve_function_type` under the
`"setitem"` key with empty keyword arguments. -/
def Context.resolve_setitem (ctx : Context) (target index value : Ty) :
    Except TypingError (Option Signature) :=
  ctx.resolve_function_type (.kStr "setitem") [target, index, value] []

/-- `Context.insert_function`: `assert key not in self.functions` then
`self.functions[key] = ft`. -/
def Context.insert_function (ctx : Context) (ft : FunctionTemplate) :
    Except TypingError Context :=
  if (lookupKey ctx.functions ft.key).isSome then .error .dupAssert
  else .ok { ctx with functions := dinsert ctx.functions ft.key ft }

/-- `Context.insert_attributes`.  NOTE (faithful to the source, line 50): the
assert checks `key not in self.functions` — the FUNCTION registry — although
its message reads "Duplicated attributes template"; a duplicate attribute key
therefore passes the assert and overwrites the existing entry. -/
def Context.insert_attributes (ctx : Context) (at' : AttributeTemplate) :
    Except TypingError Context :=
  if (lookupKey ctx.functions at'.key).isSome then .error .dupAssert
  else .ok { ctx with attributes := dinsert ctx.attributes at'.key at' }

/-- The builtin `Range` template (`key = types.range_type`). -/
def rangeT : FunctionTemplate :=
  ⟨.kTy .range_type,
   [signature .range_state32 [.int32],
    signature .range_state32 [.int32, .int32],
    signature .range_state64 [.int64],
    signature .range_state64 [.int64, .int64]], none⟩

/-- The builtin `GetIter` template. -/
def getiterT : FunctionTemplate :=
  ⟨.kStr "getiter",
   [signature .range_iter32 [.range_state32],
    signature .range_iter64 [.range_state64]], none⟩

/-- The builtin `IterNext` template. -/
def iternextT : FunctionTemplate :=
  ⟨.kStr "iternext",
   [signature .int32 [.range_iter32],
    signature .int64 [.range_iter64]], none⟩

/-- The builtin `IterValid` template. -/
def itervalidT : FunctionTemplate :=
  ⟨.kStr "itervalid",
   [signature .boolean [.range_iter32],
    signature .boolean [.range_iter64]], none⟩

/-- The shared case list of the `BinOp` templates. -/
def binopCases : List Signature :=
  [signature .int32 [.int32, .int32],
   signature .int64 [.int64, .int64],
   signature .float32 [.float32, .float32],
   signature .float64 [.float64, .float64]]

/-- One arithmetic operator template (`BinOpAdd`, `BinOpSub`, ...). -/
def binopT (op : String) : FunctionTemplate :=
  ⟨.kStr op, binopCases, none⟩

/-- The shared case list of the `CmpOp` templates. -/
def cmpopCases : List Signature :=
  [signature .boolean [.int32, .int32],
   signature .boolean [.int64, .int64],
   signature .boolean [.float32, .float32],
   signature .boolean [.float64, .float64]]

/-- One comparison operator template (`CmpOpLt`, ...). -/
def cmpopT (op : String) : FunctionTemplate :=
  ⟨.kStr op, cmpopCases, none⟩

/-- The builtin `GetItem` template (dynamic resolver, no case list). -/
def getitemT : FunctionTemplate :=
  ⟨.kStr "getitem", [], some .getitemG⟩

/-- The builtin `SetItem` template (dynamic resolver, no case list). -/
def setitemT : FunctionTemplate :=
  ⟨.kStr "setitem", [], some .setitemG⟩

/-- The `BUILTINS` catalog, in decorator registration order. -/
def BUILTINS : List FunctionTemplate :=
  [rangeT, getiterT, iternextT, itervalidT,
   binopT "+", binopT "-", binopT "*", binopT "/?",
   cmpopT "<", cmpopT "<=", cmpopT ">", cmpopT ">=", cmpopT "==", cmpopT "!=",
   getitemT, setitemT]

/-- The builtin `ArrayAttribute` template (`key = types.Array`, handler
`resolve_shape`). -/
def arrayAttrT : AttributeTemplate :=
  ⟨.kCat .arrayCls, [("shape", fun v => .unituple .intp v.tyNdim)]⟩

/-- The `BUILTIN_ATTRS` catalog. -/
def BUILTIN_ATTRS : List AttributeTemplate :=
  [arrayAttrT]

/-- `Context.load_builtins` folded into construction: insert every builtin
template (the asserts all pass on this catalog, so a failing insert — which
cannot occur — leaves the context unchanged). -/
def mkContext (lat : List ((Ty × Ty) × Int)) : Context :=
  let c0 : Context := ⟨lat, [], []⟩
  let c1 := BUILTINS.foldl
    (fun c ft => match c.insert_function ft with
      | .ok c' => c'
      | .error _ => c) c0
  BUILTIN_ATTRS.foldl
    (fun c at' => match c.insert_attributes at' with
      | .ok c' => c'
      | .error _ => c) c1

/-- The spec's cost minimum over a non-empty downcast set: the least
`_sum_downcast` cost among the head and tail candidates. -/
def minfold (dd : Int) (l : List DownEntry) : Int :=
  l.foldl (fun acc e => min acc (_sum_downcast e.1)) dd

/-- Minimal downcast cost of the candidate set `a :: t`, written from the
spec's words ("compute, per candidate, the sum of absolute values of its
negative distance entries only; select candidates with the minimal such
cost"). -/
def specMinCost (a : DownEntry) (t : List DownEntry) : Int :=
  minfold (_sum_downcast a.1) t

/-- A context with an empty lattice and empty registries. -/
def emptyCtx : Context := ⟨[], [], []⟩

/-- A lattice whose downcast distances produce costs above `sys.maxint`. -/
def c3lat : List ((Ty × Ty) × Int) :=
  [((.int32, .float32), -(2 ^ 63)), ((.int32, .float64), -(2 ^ 63) - 1)]

/-- A two-case template whose both cases only match `int32` by demotion. -/
def c3tmpl : FunctionTemplate :=
  ⟨.kStr "f", [signature .float32 [.float32], signature .float64 [.float64]], none⟩

/-- The context carrying `c3lat`. -/
def c3ctx : Context := ⟨c3lat, [], []⟩

/-- An attribute template with no handlers under the array-category key. -/
def c4at1 : AttributeTemplate := ⟨.kCat .arrayCls, []⟩

/-- A second, different attribute template under the same key. -/
def c4at2 : AttributeTemplate :=
  ⟨.kCat .arrayCls, [("shape", fun v => .unituple .intp v.tyNdim)]⟩

/-- A context whose attribute registry already holds the array-category
key. -/
def c4ctx : Context := ⟨[], [], [(.kCat .arrayCls, c4at1)]⟩

/-- A small promotion/demotion lattice between `int32` and `int64`. -/
def c8ctx : Context :=
  ⟨[((.int32, .int64), 1), ((.int64, .int32), -1)], [], []⟩

/-- One resolution query against a `Context` (the three public entry points). -/
inductive Query where
  | qCall (func : Key) (args : List Ty) (kws : List String)
  | qAttr (value : Ty) (attr : String)
  | qSetitem (target index value : Ty)

/-- The answer of a resolution query. -/
inductive Answer where
  | sigA (s : Option Signature)
  | tyA (t : Ty)
deriving DecidableEq

/-- The three resolution entry points in state-threading form: each query
returns its answer together with the context it leaves behind. -/
def runQueryState (ctx : Context) : Query → Except TypingError Answer × Context
  | .qCall f a k => ((ctx.resolve_function_type f a k).map .sigA, ctx)
  | .qAttr v a => ((ctx.resolve_getattr v a).map .tyA, ctx)
  | .qSetitem t i v => ((ctx.resolve_setitem t i v).map .sigA, ctx)

/-- C7: `type_distance(t, t)` is `0` for every type regardless of the lattice
table's contents, and on distinct types `type_distance` is exactly the
lattice-table lookup (`None` when the entry is absent). -/
theorem c7_type_distance_spec :
    (∀ (ctx : Context) (t : Ty), ctx.type_distance t t = some 0) ∧
    (∀ (ctx : Context) (a b : Ty), a ≠ b →
      ctx.type_distance a b = lookupLat ctx.type_lattice a b) := by
  constructor
  · intro ctx t
    simp [Context.type_distance]
  · intro ctx a b h
    simp [Context.type_distance, h]

/-- Witness for C7: a table that maps `(int32, int32)` to `5` still yields
distance `0` on `(int32, int32)`, and distinct types go through the table. -/
theorem c7_type_distance_spec_witness :
    (⟨[((Ty.int32, Ty.int32), 5)], [], []⟩ : Context).type_distance .int32 .int32 =
        some 0 ∧
    Ty.int32 ≠ Ty.int64 ∧
    c8ctx.type_distance .int32 .int64 = lookupLat c8ctx.type_lattice .int32 .int64 :=
  ⟨c7_type_distance_spec.1 _ _, by decide,
   c7_type_distance_spec.2 c8ctx .int32 .int64 (by decide)⟩

/-- C8: `unify_pairs` returns `pyobject` when there is no lattice path,
the second type when the distance is non-negative, and the first type when
the distance is negative. -/
theorem c8_unify_pairs_spec :
    ∀ (ctx : Context) (a b : Ty),
      (ctx.type_distance a b = none → ctx.unify_pairs a b = .pyobject) ∧
      (∀ d, ctx.type_distance a b = some d → 0 ≤ d → ctx.unify_pairs a b = b) ∧
      (∀ d, ctx.type_distance a b = some d → d < 0 → ctx.unify_pairs a b = a) := by
  intro ctx a b
  refine ⟨?_, ?_, ?_⟩
  · intro h
    simp [Context.unify_pairs, h]
  · intro d h hd
    simp [Context.unify_pairs, h, ge_iff_le, hd]
  · intro d h hd
    simp only [Context.unify_pairs, h]
    rw [if_neg (by omega)]

/-- Witness for C8: with distances `int32 → int64 = 1` and
`int64 → int32 = -1`, both unifications choose `int64`; with no path the
result is `pyobject`. -/
theorem c8_unify_pairs_spec_witness :
    c8ctx.type_distance .int32 .int64 = some 1 ∧
    c8ctx.unify_pairs .int32 .int64 = .int64 ∧
    c8ctx.type_distance .int64 .int32 = some (-1) ∧
    c8ctx.unify_pairs .int64 .int32 = .int64 ∧
    c8ctx.type_distance .float32 .boolean = none ∧
    c8ctx.unify_pairs .float32 .boolean = .pyobject :=
  ⟨by decide,
   (c8_unify_pairs_spec c8ctx .int32 .int64).2.1 1 (by decide) (by decide),
   by decide,
   (c8_unify_pairs_spec c8ctx .int64 .int32).2.2 (-1) (by decide) (by decide),
   by decide,
   (c8_unify_pairs_spec c8ctx .float32 .boolean).1 (by decide)⟩

/-- C9: two Signatures are equal exactly when their parameter tuples are
equal, equal Signatures have equal hashes, and both relations ignore the
return type — Signatures differing only in return type are equal and
hash-equal. -/
theorem c9_signature_eq_hash :
    (∀ s1 s2 : Signature, sigEq s1 s2 = true ↔ s1.args = s2.args) ∧
    (∀ s1 s2 : Signature, sigEq s1 s2 = true → sigHash s1 = sigHash s2) ∧
    (∀ (r1 r2 : Ty) (ps : List Ty),
      sigEq ⟨r1, ps⟩ ⟨r2, ps⟩ = true ∧ sigHash ⟨r1, ps⟩ = sigHash ⟨r2, ps⟩) := by
  refine ⟨?_, ?_, ?_⟩
  · intro s1 s2
    simp [sigEq]
  · intro s1 s2 h
    simp only [sigEq, beq_iff_eq] at h
    simp [sigHash, h]
  · intro r1 r2 ps
    exact ⟨by simp [sigEq], rfl⟩

/-- Witness for C9: `(int64) -> int32` and `(int64) -> float32` are equal and
hash-equal. -/
theorem c9_signature_eq_hash_witness :
    sigEq (signature .int32 [.int64]) (signature .float32 [.int64]) = true ∧
    sigHash (signature .int32 [.int64]) = sigHash (signature .float32 [.int64]) :=
  ⟨by decide,
   c9_signature_eq_hash.2.1 (signature .int32 [.int64])
     (signature .float32 [.int64]) (by decide)⟩

/-- C10: every resolution query (call, attribute, index-assign) leaves the
function registry, the attribute registry and the lattice reference of the
context unchanged, and running the same query again gives the same result. -/
theorem c10_resolution_pure :
    ∀ (ctx : Context) (q : Query),
      ((runQueryState ctx q).2.functions = ctx.functions ∧
       (runQueryState ctx q).2.attributes = ctx.attributes ∧
       (runQueryState ctx q).2.type_lattice = ctx.type_lattice) ∧
      runQueryState (runQueryState ctx q).2 q = runQueryState ctx q := by
  intro ctx q
  cases q <;> exact ⟨⟨rfl, rfl, rfl⟩, rfl⟩

/-- C4 (code bug): a duplicate attribute key passes the registration assert —
which checks the FUNCTION registry — and silently overwrites the existing
attribute template instead of failing. -/
theorem c4_duplicate_attribute_overwrites :
    c4ctx.insert_attributes c4at2 =
      .ok ⟨[], [], [(.kCat .arrayCls, c4at2)]⟩ := rfl

/-- C1 (counterexample): a case-list template for which no case matches — the
matching phase yields empty upcast and downcast sets — makes `apply` return
the value `None`; no `Unsupported` (or any other) error is raised. -/
theorem c1_counterexample :
    _find_compatible_definitions emptyCtx [.int32] [] 0 getiterT.cases =
        .ok ([], []) ∧
    getiterT.apply emptyCtx [.int32] [] = .ok none :=
  ⟨by decide, by decide⟩

/-- C1 (amended): whenever the matching phase of a case-list template yields
empty upcast and downcast sets, `apply` returns `None` (no signature) as a
normal return value. -/
theorem c1_both_empty_returns_none :
    ∀ (ctx : Context) (t : FunctionTemplate) (args : List Ty) (kws : List String),
      t.cases ≠ [] →
      _find_compatible_definitions ctx args kws 0 t.cases = .ok ([], []) →
      t.apply ctx args kws = .ok none := by
  intro ctx t args kws hc hf
  cases hcs : t.cases with
  | nil => exact absurd hcs hc
  | cons c cs =>
      rw [hcs] at hf
      simp [FunctionTemplate.apply, hcs, hf, _select_best_definition]

/-- Witness for C1 (amended): the builtin `getiter` template applied to
`(int32,)` over an empty lattice. -/
theorem c1_both_empty_returns_none_witness :
    getiterT.cases ≠ [] ∧
    _find_compatible_definitions emptyCtx [Ty.int32] [] 0 getiterT.cases =
        .ok ([], []) ∧
    getiterT.apply emptyCtx [Ty.int32] [] = .ok none :=
  ⟨by decide, by decide,
   c1_both_empty_returns_none emptyCtx getiterT [.int32] [] (by decide) (by decide)⟩

/-- C5: applying a template that has a non-empty case list with a non-empty
keyword-argument set always raises the keyword-argument assertion error. -/
theorem c5_keyword_args_hard_error :
    ∀ (ctx : Context) (t : FunctionTemplate) (args : List Ty) (kws : List String),
      t.cases ≠ [] → kws ≠ [] →
      t.apply ctx args kws = .error .kwAssert := by
  intro ctx t args kws hc hk
  cases hcs : t.cases with
  | nil => exact absurd hcs hc
  | cons c cs =>
      cases kws with
      | nil => exact absurd rfl hk
      | cons k ks =>
          simp [FunctionTemplate.apply, hcs, _find_compatible_definitions,
            apply_case]

/-- Witness for C5: the builtin `getiter` template with one keyword
argument. -/
theorem c5_keyword_args_hard_error_witness :
    getiterT.cases ≠ [] ∧ (["x"] : List String) ≠ [] ∧
    getiterT.apply emptyCtx [Ty.range_state32] ["x"] = .error .kwAssert :=
  ⟨by decide, by decide,
   c5_keyword_args_hard_error emptyCtx getiterT [.range_state32] ["x"]
     (by decide) (by decide)⟩

/-- C6: attribute resolution uses the template registered under the value
type's exact key; for a parametric value type with no exact-key template it
falls back to the template under the type's category key; and when the found
template has no handler for the attribute name it fails with
`NotImplemented(value, attr)`. -/
theorem c6_getattr_resolution :
    ∀ (ctx : Context) (v : Ty) (attr : String),
      (∀ ai, lookupKey ctx.attributes (.kTy v) = some ai →
        ctx.resolve_getattr v attr = ai.resolve v attr) ∧
      (lookupKey ctx.attributes (.kTy v) = none → v.is_parametric = true →
        ∀ ai, lookupKey ctx.attributes (.kCat v.cat) = some ai →
          ctx.resolve_getattr v attr = ai.resolve v attr) ∧
      (∀ ai, lookupKey ctx.attributes (.kTy v) = some ai →
        lookupHandler ai attr = none →
        ctx.resolve_getattr v attr = .error (.attrNotImpl v attr)) ∧
      (lookupKey ctx.attributes (.kTy v) = none → v.is_parametric = true →
        ∀ ai, lookupKey ctx.attributes (.kCat v.cat) = some ai →
          lookupHandler ai attr = none →
          ctx.resolve_getattr v attr = .error (.attrNotImpl v attr)) := by
  intro ctx v attr
  refine ⟨?_, ?_, ?_, ?_⟩
  · intro ai h
    simp [Context.resolve_getattr, h]
  · intro h hp ai h2
    simp [Context.resolve_getattr, h, hp, h2]
  · intro ai h hh
    simp [Context.resolve_getattr, h, AttributeTemplate.resolve, hh]
  · intro h hp ai h2 hh
    simp [Context.resolve_getattr, h, hp, h2, AttributeTemplate.resolve, hh]

/-- Witness for C6: on a builtin context, the parametric `array(int32, 2)`
has no exact-key template, falls back to the array-category template, and an
attribute without a handler fails with `NotImplemented` carrying the value
type and the attribute name. -/
theorem c6_getattr_resolution_witness :
    lookupKey (mkContext []).attributes (.kTy (.array .int32 2)) = none ∧
    (Ty.array .int32 2).is_parametric = true ∧
    lookupKey (mkContext []).attributes (.kCat (Ty.array .int32 2).cat) =
        some arrayAttrT ∧
    lookupHandler arrayAttrT "ndim" = none ∧
    (mkContext []).resolve_getattr (.array .int32 2) "ndim" =
        .error (.attrNotImpl (.array .int32 2) "ndim") :=
  ⟨rfl, rfl, rfl, rfl,
   (c6_getattr_resolution (mkContext []) (.array .int32 2) "ndim").2.2.2
     rfl rfl arrayAttrT rfl rfl⟩

/-- The tuple comparison unfolded to arithmetic. -/
theorem lexLt_iff (a b : UpEntry) :
    lexLt a b = true ↔ (a.s < b.s ∨ (a.s = b.s ∧ a.idx < b.idx)) := by
  simp only [lexLt]
  split <;> rename_i h1
  · simp [h1]
  · split <;> rename_i h2 <;> simp [h1, h2]

/-- Negated tuple comparison unfolded to arithmetic. -/
theorem lexLt_eq_false_iff (a b : UpEntry) :
    lexLt a b = false ↔ ¬(a.s < b.s ∨ (a.s = b.s ∧ a.idx < b.idx)) := by
  rw [← Bool.not_eq_true, lexLt_iff]

/-- Python's `min` returns a member of the list. -/
theorem pymin_mem : ∀ (t : List UpEntry) (b : UpEntry), pymin b t ∈ b :: t := by
  intro t
  induction t with
  | nil =>
      intro b
      simp [pymin]
  | cons h t ih =>
      intro b
      simp only [pymin]
      split
      · have := ih h
        simp only [List.mem_cons] at this ⊢
        tauto
      · have := ih b
        simp only [List.mem_cons] at this ⊢
        tauto

/-- Python's `min` is a lower bound: no element is strictly below it. -/
theorem pymin_le : ∀ (t : List UpEntry) (b x : UpEntry),
    x ∈ b :: t → lexLt x (pymin b t) = false := by
  intro t
  induction t with
  | nil =>
      intro b x hx
      simp only [List.mem_cons, List.not_mem_nil, or_false] at hx
      subst hx
      simp only [pymin]
      rw [lexLt_eq_false_iff]
      omega
  | cons h t ih =>
      intro b x hx
      simp only [pymin]
      by_cases hlt : lexLt h b = true
      · rw [if_pos hlt]
        rcases List.mem_cons.mp hx with hxb | hx2
        · subst hxb
          have h1 : lexLt h (pymin h t) = false := ih h h (List.mem_cons_self h t)
          rw [lexLt_iff] at hlt
          rw [lexLt_eq_false_iff] at h1 ⊢
          omega
        · exact ih h x hx2
      · rw [if_neg hlt]
        rw [Bool.not_eq_true] at hlt
        rcases List.mem_cons.mp hx with hxb | hx2
        · subst hxb
          exact ih x x (List.mem_cons_self x t)
        · rcases List.mem_cons.mp hx2 with hxh | hx3
          · subst hxh
            have h1 : lexLt b (pymin b t) = false := ih b b (List.mem_cons_self b t)
            rw [lexLt_eq_false_iff] at h1 ⊢
            rw [lexLt_eq_false_iff] at hlt
            omega
          · exact ih b x (List.mem_cons_of_mem b hx3)

/-- Removing an element keeps membership inside the original list. -/
theorem mem_of_mem_remove_first :
    ∀ (l : List UpEntry) (x y : UpEntry), y ∈ remove_first x l → y ∈ l := by
  intro l x
  induction l with
  | nil =>
      intro y h
      simp [remove_first] at h
  | cons a l ih =>
      intro y h
      simp only [remove_first] at h
      split at h
      · exact List.mem_cons_of_mem a h
      · rcases List.mem_cons.mp h with h1 | h2
        · exact h1 ▸ List.mem_cons_self a l
        · exact List.mem_cons_of_mem a (ih y h2)

/-- Removing a member shortens the list by exactly one. -/
theorem remove_first_length :
    ∀ (l : List UpEntry) (x : UpEntry), x ∈ l →
      (remove_first x l).length + 1 = l.length := by
  intro l x
  induction l with
  | nil =>
      intro h
      simp at h
  | cons a l ih =>
      intro h
      simp only [remove_first]
      split <;> rename_i ha
      · simp
      · have hx : x ∈ l := by
          rcases List.mem_cons.mp h with h1 | h2
          · exact absurd h1.symm ha
          · exact h2
        have := ih hx
        simp only [List.length_cons]
        omega

/-- C2: a singleton upcast set returns its only candidate; otherwise the
minimum by `(sum, case)` order is taken (it is a member below every other
member), removed, the minimum of the remainder is taken, and only those two
sums are compared — strictly smaller wins, equal sums fail with an ambiguity
error naming exactly those two candidates. -/
theorem c2_upcast_selection :
    (∀ e : UpEntry, _select_best_upcast [e] = .ok e.sig) ∧
    (∀ (b h : UpEntry) (t : List UpEntry),
      ∃ r rs,
        remove_first (pymin b (h :: t)) (b :: h :: t) = r :: rs ∧
        pymin b (h :: t) ∈ b :: h :: t ∧
        (∀ x ∈ b :: h :: t, lexLt x (pymin b (h :: t)) = false) ∧
        pymin r rs ∈ r :: rs ∧
        (∀ x ∈ r :: rs, lexLt x (pymin r rs) = false) ∧
        (pymin b (h :: t)).s ≤ (pymin r rs).s ∧
        ((pymin b (h :: t)).s < (pymin r rs).s →
          _select_best_upcast (b :: h :: t) = .ok (pymin b (h :: t)).sig) ∧
        ((pymin b (h :: t)).s = (pymin r rs).s →
          _select_best_upcast (b :: h :: t) =
            .error (.ambiguous [(pymin b (h :: t)).sig, (pymin r rs).sig]))) := by
  constructor
  · intro e
    rfl
  · intro b h t
    obtain ⟨r, rs, hrem⟩ :
        ∃ r rs, remove_first (pymin b (h :: t)) (b :: h :: t) = r :: rs := by
      have hm : pymin b (h :: t) ∈ b :: h :: t := pymin_mem _ _
      have hl := remove_first_length _ _ hm
      cases hr : remove_first (pymin b (h :: t)) (b :: h :: t) with
      | nil =>
          rw [hr] at hl
          simp at hl
      | cons r rs => exact ⟨r, rs, rfl⟩
    have hsle : (pymin b (h :: t)).s ≤ (pymin r rs).s := by
      have hs_mem2 : pymin r rs ∈ b :: h :: t := by
        apply mem_of_mem_remove_first _ (pymin b (h :: t))
        rw [hrem]
        exact pymin_mem _ _
      have := pymin_le (h :: t) b (pymin r rs) hs_mem2
      rw [lexLt_eq_false_iff] at this
      omega
    refine ⟨r, rs, hrem, pymin_mem _ _, fun x hx => pymin_le _ _ _ hx,
      pymin_mem _ _, fun x hx => pymin_le _ _ _ hx, hsle, ?_, ?_⟩
    · intro hlt
      simp only [_select_best_upcast]
      rw [hrem]
      simp only [if_pos hlt]
    · intro heq
      simp only [_select_best_upcast]
      rw [hrem]
      simp only [if_neg (show ¬((pymin b (h :: t)).s < (pymin r rs).s) by omega)]

/-- Witness for C2: sums `1` and `2` — the smaller-sum candidate wins. -/
theorem c2_upcast_selection_witness :
    _select_best_upcast
        [⟨1, 0, signature .int32 [.int32]⟩, ⟨2, 1, signature .int64 [.int64]⟩] =
      .ok (signature .int32 [.int32]) := by
  obtain ⟨r, rs, hrem, -, -, -, -, -, hlt, -⟩ :=
    c2_upcast_selection.2 ⟨1, 0, signature .int32 [.int32]⟩
      ⟨2, 1, signature .int64 [.int64]⟩ []
  have hr : remove_first
      (pymin ⟨1, 0, signature .int32 [.int32]⟩ [⟨2, 1, signature .int64 [.int64]⟩])
      [⟨1, 0, signature .int32 [.int32]⟩, ⟨2, 1, signature .int64 [.int64]⟩] =
      [⟨2, 1, signature .int64 [.int64]⟩] := by decide
  rw [hr] at hrem
  obtain ⟨h1, h2⟩ := List.cons.inj hrem
  subst h1
  subst h2
  have hres := hlt (by decide)
  rw [hres]
  decide

/-- The folded minimum never exceeds its starting value. -/
theorem minfold_le_init : ∀ (l : List DownEntry) (dd : Int), minfold dd l ≤ dd := by
  intro l
  induction l with
  | nil =>
      intro dd
      simp [minfold]
  | cons e l ih =>
      intro dd
      have h1 : minfold dd (e :: l) = minfold (min dd (_sum_downcast e.1)) l := rfl
      rw [h1]
      exact le_trans (ih _) (min_le_left _ _)

/-- The folded minimum is below every member's cost. -/
theorem minfold_le_mem : ∀ (l : List DownEntry) (dd : Int) (e : DownEntry),
    e ∈ l → minfold dd l ≤ _sum_downcast e.1 := by
  intro l
  induction l with
  | nil =>
      intro dd e h
      simp at h
  | cons a l ih =>
      intro dd e h
      have h1 : minfold dd (a :: l) = minfold (min dd (_sum_downcast a.1)) l := rfl
      rcases List.mem_cons.mp h with h2 | h2
      · rw [h1, h2]
        exact le_trans (minfold_le_init _ _) (min_le_right _ _)
      · rw [h1]
        exact ih _ e h2

/-- The folded minimum is the starting value or some member's cost. -/
theorem minfold_attained : ∀ (l : List DownEntry) (dd : Int),
    minfold dd l = dd ∨ ∃ e ∈ l, minfold dd l = _sum_downcast e.1 := by
  intro l
  induction l with
  | nil =>
      intro dd
      exact Or.inl rfl
  | cons a l ih =>
      intro dd
      have h1 : minfold dd (a :: l) = minfold (min dd (_sum_downcast a.1)) l := rfl
      rcases ih (min dd (_sum_downcast a.1)) with h2 | ⟨e, he, h2⟩
      · rcases le_total dd (_sum_downcast a.1) with hc | hc
        · left
          rw [h1, h2, min_eq_left hc]
        · right
          exact ⟨a, List.mem_cons_self a l,
            by rw [h1, h2, min_eq_right hc]⟩
      · right
        exact ⟨e, List.mem_cons_of_mem a he, by rw [h1, h2]⟩

/-- The selection loop of `_select_best_downcast` collects, in order, exactly
the candidates whose cost equals the folded minimum of the initial `downdist`
and all costs; the initial `leasts` survives only when nothing beat the
initial `downdist`. -/
theorem downLoop_eq : ∀ (rest : List DownEntry) (dd : Int) (ls : List DownEntry),
    downLoop dd ls rest =
      (if minfold dd rest = dd then ls else []) ++
        rest.filter (fun e => _sum_downcast e.1 == minfold dd rest) := by
  intro rest
  induction rest with
  | nil =>
      intro dd ls
      simp [downLoop, minfold]
  | cons e rest ih =>
      intro dd ls
      have hstep : ∀ d0 : Int, minfold d0 (e :: rest) =
          minfold (min d0 (_sum_downcast e.1)) rest := fun _ => rfl
      simp only [downLoop]
      by_cases h1 : _sum_downcast e.1 < dd
      · rw [if_pos h1, ih]
        have hm' : minfold dd (e :: rest) = minfold (_sum_downcast e.1) rest := by
          rw [hstep, min_eq_right (le_of_lt h1)]
        rw [hm']
        have hle : minfold (_sum_downcast e.1) rest ≤ _sum_downcast e.1 :=
          minfold_le_init _ _
        rw [if_neg (show ¬(minfold (_sum_downcast e.1) rest = dd) by omega)]
        simp only [List.filter_cons, beq_iff_eq]
        by_cases he : _sum_downcast e.1 = minfold (_sum_downcast e.1) rest
        · rw [if_pos he.symm, if_pos he]
          simp
        · rw [if_neg (fun hx => he hx.symm), if_neg he]
      · by_cases h2 : _sum_downcast e.1 = dd
        · rw [if_neg h1, if_pos h2, ih]
          have hm' : minfold dd (e :: rest) = minfold dd rest := by
            rw [hstep, h2, min_self]
          rw [hm']
          simp only [List.filter_cons, beq_iff_eq]
          have hle : minfold dd rest ≤ dd := minfold_le_init _ _
          by_cases h3 : minfold dd rest = dd
          · rw [if_pos h3, if_pos h3, if_pos (h2.trans h3.symm)]
            simp
          · rw [if_neg h3, if_neg h3,
              if_neg (show ¬(_sum_downcast e.1 = minfold dd rest) by omega)]
        · rw [if_neg h1, if_neg h2, ih]
          have hm' : minfold dd (e :: rest) = minfold dd rest := by
            rw [hstep, min_eq_left (by omega)]
          rw [hm']
          simp only [List.filter_cons, beq_iff_eq]
          have hle : minfold dd rest ≤ dd := minfold_le_init _ _
          rw [if_neg (show ¬(_sum_downcast e.1 = minfold dd rest) by omega)]

/-- C3 (amended): a singleton downcast set returns its only candidate;
otherwise, provided every candidate's cost — the sum of absolute values of
its negative distance entries — is at most `sys.maxint`, the candidates tied
at the minimal cost decide the result: a unique one is returned, two or more
fail with an ambiguity error naming all of them in order. -/
theorem c3_downcast_selection :
    (∀ e : DownEntry, _select_best_downcast [e] = .ok e.2) ∧
    (∀ (a b : DownEntry) (t : List DownEntry),
      (∀ e ∈ a :: b :: t, _sum_downcast e.1 ≤ maxint) →
      (∀ e ∈ a :: b :: t, specMinCost a (b :: t) ≤ _sum_downcast e.1) ∧
      (∃ e ∈ a :: b :: t, _sum_downcast e.1 = specMinCost a (b :: t)) ∧
      (∀ e, (a :: b :: t).filter
          (fun x => _sum_downcast x.1 == specMinCost a (b :: t)) = [e] →
        _select_best_downcast (a :: b :: t) = .ok e.2) ∧
      (∀ e1 e2 es, (a :: b :: t).filter
          (fun x => _sum_downcast x.1 == specMinCost a (b :: t)) = e1 :: e2 :: es →
        _select_best_downcast (a :: b :: t) =
          .error (.ambiguous ((e1 :: e2 :: es).map Prod.snd)))) := by
  constructor
  · intro e
    rfl
  · intro a b t hmax
    have hmc : minfold maxint (a :: b :: t) = specMinCost a (b :: t) := by
      have h1 : minfold maxint (a :: b :: t) =
          minfold (min maxint (_sum_downcast a.1)) (b :: t) := rfl
      rw [h1, min_eq_right (hmax a (List.mem_cons_self a (b :: t)))]
      rfl
    have hloop : downLoop maxint [] (a :: b :: t) =
        (a :: b :: t).filter
          (fun x => _sum_downcast x.1 == specMinCost a (b :: t)) := by
      rw [downLoop_eq, hmc]
      split <;> simp
    refine ⟨?_, ?_, ?_, ?_⟩
    · intro e he
      rw [← hmc]
      exact minfold_le_mem _ _ e he
    · rcases minfold_attained (b :: t) (_sum_downcast a.1) with h1 | ⟨e, he, h1⟩
      · exact ⟨a, List.mem_cons_self a (b :: t), h1.symm⟩
      · exact ⟨e, List.mem_cons_of_mem a he, h1.symm⟩
    · intro e hfe
      simp only [_select_best_downcast]
      rw [hloop, hfe]
    · intro e1 e2 es hfe
      simp only [_select_best_downcast]
      rw [hloop, hfe]

/-- C3 (counterexample): two downcast candidates with distinct costs
`2 ^ 63` and `2 ^ 63 + 1` — both above `sys.maxint` — make resolution fail
with an ambiguity error naming NO candidates, although the claim demands that
the unique minimal-cost candidate (the first case) be returned. -/
theorem c3_counterexample :
    _sum_downcast [-(2 ^ 63)] = 2 ^ 63 ∧
    _sum_downcast [-(2 ^ 63) - 1] = 2 ^ 63 + 1 ∧
    _find_compatible_definitions c3ctx [.int32] [] 0 c3tmpl.cases =
      .ok ([], [([-(2 ^ 63)], signature .float32 [.float32]),
                ([-(2 ^ 63) - 1], signature .float64 [.float64])]) ∧
    c3tmpl.apply c3ctx [Ty.int32] [] = .error (.ambiguous []) :=
  ⟨by decide, by decide, by decide, by decide⟩

/-- Witness for C3 (amended): two candidates tied at cost `1` fail with an
ambiguity error naming both, in order. -/
theorem c3_downcast_selection_witness :
    (∀ e ∈ [(([-1] : List Int), signature .float32 [.float32]),
            (([-1] : List Int), signature .float64 [.float64])],
        _sum_downcast e.1 ≤ maxint) ∧
    _select_best_downcast
        [(([-1] : List Int), signature .float32 [.float32]),
         (([-1] : List Int), signature .float64 [.float64])] =
      .error (.ambiguous [signature .float32 [.float32],
                          signature .float64 [.float64]]) :=
  ⟨by decide,
   (c3_downcast_selection.2
      (([-1] : List Int), signature .float32 [.float32])
      (([-1] : List Int), signature .float64 [.float64]) [] (by decide)).2.2.2
      (([-1] : List Int), signature .float32 [.float32])
      (([-1] : List Int), signature .float64 [.float64]) [] (by decide)⟩

end NumbaTyping
